import Mathlib

/-!
Shallow embedding of `src/core/visualization/paraview/generate_pv_state.py`.

The script reads a JSON manifest, discovers per-agent / per-substance
time-series files, sorts them by the iteration number encoded in the
filename, wires them into toolkit readers, configures the animation
timeline and saves a `.pvsm` session file.

Python strings are modelled as `List Char` (`PyStr`).  Effectful toolkit
and OS calls are modelled as an explicit trace of `Eff` values; a run
either completes (`Res.ok`), terminates via `sys.exit(1)` (`Res.exit1`)
or dies on an uncaught Python exception (`Res.err`).
-/

abbrev PyStr := List Char

/-- Python `s.split(sep)` for a single-character separator: splits at every
occurrence of `sep`, keeping empty fragments; never returns `[]`. -/
def pySplit (sep : Char) : PyStr → List PyStr
  | [] => [[]]
  | c :: rest =>
    if c = sep then [] :: pySplit sep rest
    else
      match pySplit sep rest with
      | [] => [[c]]
      | h :: t => (c :: h) :: t

theorem pySplit_ne_nil (sep : Char) (s : PyStr) : pySplit sep s ≠ [] := by
  induction s with
  | nil => simp [pySplit]
  | cons c rest ih =>
    simp only [pySplit]
    split
    · simp
    · rcases h : pySplit sep rest with _ | ⟨h₁, t₁⟩
      · simp
      · simp [h]

theorem pySplit_of_not_mem {sep : Char} {s : PyStr} (h : sep ∉ s) :
    pySplit sep s = [s] := by
  induction s with
  | nil => rfl
  | cons c rest ih =>
    simp only [List.mem_cons, not_or] at h
    simp only [pySplit]
    rw [if_neg (fun hc => h.1 hc.symm)]
    rw [ih h.2]

theorem pySplit_append (sep : Char) (x y : PyStr) :
    pySplit sep (x ++ sep :: y) = pySplit sep x ++ pySplit sep y := by
  induction x with
  | nil => simp [pySplit]
  | cons c rest ih =>
    simp only [List.cons_append, pySplit]
    split
    · simp [ih]
    · rcases h : pySplit sep rest with _ | ⟨h₁, t₁⟩
      · exact absurd h (pySplit_ne_nil sep rest)
      · simp only [List.append_eq, ih, h, List.cons_append]

/-- ASCII decimal digit test (`'0'` to `'9'`). -/
def isPyDigit (c : Char) : Bool := '0' ≤ c && c ≤ '9'

/-- Whitespace stripped by Python `int(str)` (ASCII fragment). -/
def isPySpace (c : Char) : Bool :=
  c = ' ' || c = '\t' || c = '\n' || c = '\r' || c = '\x0b' || c = '\x0c'

def stripWS (s : PyStr) : PyStr :=
  ((s.dropWhile isPySpace).reverse.dropWhile isPySpace).reverse

/-- Tail of a Python integer-literal digit run: digits, with single
underscores allowed only between digits. -/
def pyDigitsTail : List Char → Bool
  | [] => true
  | '_' :: c :: r => isPyDigit c && pyDigitsTail r
  | '_' :: [] => false
  | c :: r => isPyDigit c && pyDigitsTail r

/-- A valid (unsigned) digit run for Python `int(str)`. -/
def pyDigitsOK : List Char → Bool
  | [] => false
  | c :: r => isPyDigit c && pyDigitsTail r

/-- Numeric value of a digit run, ignoring underscores. -/
def pyDigitsVal (l : List Char) : Nat :=
  l.foldl (fun acc c => if c = '_' then acc else acc * 10 + (c.toNat - 48)) 0

/-- Python `int(str)`: optional surrounding whitespace, optional sign,
then a digit run with optional single underscores between digits.
`none` models the `ValueError` raised on malformed input. -/
def pyInt (s : PyStr) : Option Int :=
  match stripWS s with
  | '+' :: r => if pyDigitsOK r then some (pyDigitsVal r : Int) else none
  | '-' :: r => if pyDigitsOK r then some (-(pyDigitsVal r : Int)) else none
  | r => if pyDigitsOK r then some (pyDigitsVal r : Int) else none

/-- Embeds `ExtractIterationFromFilename(x)`:
`int(x.split('-')[-1].split('.')[0])`.  `none` models the raised
`ValueError` for malformed filenames. -/
def extractIterationFromFilename (x : PyStr) : Option Int :=
  pyInt ((pySplit '.' ((pySplit '-' x).getLastD [])).headD [])

/-- Sort key used by the `functools.cmp_to_key` comparator
`ExtractIterationFromFilename(x) - ExtractIterationFromFilename(y)`.
The comparator is only ever evaluated on filenames whose iteration
parses (a parse failure raises and aborts the run, modelled separately),
so the default `0` is never observable. -/
def iterKey (f : PyStr) : Int := (extractIterationFromFilename f).getD 0

/-- The comparator-induced order: file `x` precedes (or ties) `y` when its
extracted iteration is no larger. -/
def fileLE (x y : PyStr) : Prop := iterKey x ≤ iterKey y

instance : DecidableRel fileLE := fun _ _ => Int.decLe _ _

instance : IsTotal PyStr fileLE := ⟨fun a b => le_total (iterKey a) (iterKey b)⟩

instance : IsTrans PyStr fileLE := ⟨fun _ _ _ => le_trans⟩

/-- Embeds `sorted(files, key=functools.cmp_to_key(...))`: Python's `sorted` is a
stable sort whose comparator here orders by extracted iteration; it is
modelled by the stable `insertionSort` on the same total preorder. -/
def sortFilesByIteration (files : List PyStr) : List PyStr :=
  files.insertionSort fileLE

theorem sortFilesByIteration_perm (files : List PyStr) :
    List.Perm (sortFilesByIteration files) files :=
  List.perm_insertionSort fileLE files

theorem sortFilesByIteration_sorted (files : List PyStr) :
    (sortFilesByIteration files).Pairwise (fun x y => iterKey x ≤ iterKey y) :=
  List.sorted_insertionSort fileLE files

theorem sortFilesByIteration_stable (files : List PyStr) (k : Int) :
    (sortFilesByIteration files).filter (fun f => iterKey f == k)
      = files.filter (fun f => iterKey f == k) := by
  have hsub : List.Sublist (files.filter (fun f => iterKey f == k))
      (sortFilesByIteration files) := by
    apply List.sublist_insertionSort
    · apply List.pairwise_of_forall_mem_list
      intro a ha b hb
      have ha2 := (List.mem_filter.mp ha).2
      have hb2 := (List.mem_filter.mp hb).2
      simp only [beq_iff_eq] at ha2 hb2
      simp [fileLE, ha2, hb2]
    · exact List.filter_sublist files
  have hperm : List.Perm
      ((sortFilesByIteration files).filter (fun f => iterKey f == k))
      (files.filter (fun f => iterKey f == k)) :=
    (sortFilesByIteration_perm files).filter _
  have hsub2 := hsub.filter (fun f => iterKey f == k)
  simp only [List.filter_filter, Bool.and_self] at hsub2
  exact (hsub2.eq_of_length hperm.length_eq.symm).symm

/-! ## Effect traces and run outcomes -/

/-- Observable actions of the script: stdout prints, OS calls, and the
toolkit API calls it issues. -/
inductive Eff where
  | print (msg : PyStr)
  | ensureOffscreenDefault
  | installRenderlessPatches
  | createView
  | setInteractionMode3D
  | disableRenderOnInteraction
  | createUnstructuredGridReader (files : List PyStr)
  | processSimulationObject (name : PyStr)
  | createImageDataReader (files : List PyStr)
  | processExtracellularSubstance (name : PyStr)
  | setTimestepValues (ts : List Int)
  | setNumberOfFrames (n : Nat)
  | updateAnimationUsingDataTimeSteps
  | chdir (dir : PyStr)
  | saveState (filename : PyStr)
deriving DecidableEq, Repr

/-- Outcome of (a piece of) the script: the effect trace emitted so far,
ending in `sys.exit(1)` (`exit1`), an uncaught Python exception (`err`),
or normal completion with a value (`ok`). -/
inductive Res (α : Type) where
  | exit1 (trace : List Eff)
  | err (trace : List Eff)
  | ok (trace : List Eff) (val : α)
deriving DecidableEq

def Res.withTrace (t : List Eff) : Res α → Res α
  | .exit1 t2 => .exit1 (t ++ t2)
  | .err t2 => .err (t ++ t2)
  | .ok t2 a => .ok (t ++ t2) a

def Res.bind : Res α → (α → Res β) → Res β
  | .exit1 t, _ => .exit1 t
  | .err t, _ => .err t
  | .ok t a, f => Res.withTrace t (f a)

instance : Monad Res where
  pure a := .ok [] a
  bind := Res.bind

def emit (e : Eff) : Res Unit := .ok [e] ()

def Res.trace : Res α → List Eff
  | .exit1 t => t
  | .err t => t
  | .ok t _ => t

def Res.isFatalExit1 : Res α → Bool
  | .exit1 _ => true
  | _ => false

@[simp] theorem Res.bind_def (m : Res α) (f : α → Res β) :
    m >>= f = Res.bind m f := rfl

@[simp] theorem Res.pure_def (a : α) : (pure a : Res α) = .ok [] a := rfl

@[simp] theorem Res.bind_exit1 (t : List Eff) (f : α → Res β) :
    Res.bind (.exit1 t) f = .exit1 t := rfl

@[simp] theorem Res.bind_err (t : List Eff) (f : α → Res β) :
    Res.bind (.err t) f = .err t := rfl

@[simp] theorem Res.bind_ok (t : List Eff) (a : α) (f : α → Res β) :
    Res.bind (.ok t a) f = Res.withTrace t (f a) := rfl

@[simp] theorem Res.withTrace_exit1 (t t2 : List Eff) :
    Res.withTrace t (.exit1 t2 : Res α) = .exit1 (t ++ t2) := rfl

@[simp] theorem Res.withTrace_err (t t2 : List Eff) :
    Res.withTrace t (.err t2 : Res α) = .err (t ++ t2) := rfl

@[simp] theorem Res.withTrace_ok (t t2 : List Eff) (a : α) :
    Res.withTrace t (.ok t2 a : Res α) = .ok (t ++ t2) a := rfl

/-! ## Data model: manifest and abstract environment -/

/-- One entry of the manifest's `agents` list.  The script itself reads
only `name`; the remaining keys (`glyph`, `shape`, `scaling_attribute`)
are consumed by the external `ProcessSimulationObject` hook. -/
structure AgentInfo where
  name : PyStr
deriving DecidableEq

/-- One entry of `extracellular_substances`; the script reads only
`name` (`has_gradient` is consumed by the external hook). -/
structure SubstanceInfo where
  name : PyStr
deriving DecidableEq

/-- The parsed JSON manifest (assumed well-formed; schema violations
propagate as uncaught exceptions outside this model). -/
structure Manifest where
  simName : PyStr
  resultDir : PyStr
  agents : List AgentInfo
  substances : List SubstanceInfo
deriving DecidableEq

/-- Abstract process environment: command-line arguments, the
`BDM_RENDERLESS` variable, filesystem and glob results.
`envBdmRenderless` is carried so claims about it can be stated; the
script variant under verification never reads it. -/
structure World where
  argvTail : List PyStr
  envBdmRenderless : Option PyStr
  pathExists : PyStr → Bool
  manifestOf : PyStr → Manifest
  glob : PyStr → List PyStr

/-- Python truthiness of a string: non-empty. -/
def pyTruthy (s : PyStr) : Bool := !s.isEmpty

def agentPattern (resultDir name : PyStr) : PyStr :=
  resultDir ++ ('/' :: name) ++ ("-*.pvtu".toList)

def substancePattern (resultDir name : PyStr) : PyStr :=
  resultDir ++ ('/' :: name) ++ ("-*.pvti".toList)

def msgUsage : PyStr := "This script expects the json filename as argument.".toList

def msgJsonMissing (jf : PyStr) : PyStr :=
  "Json file ".toList ++ jf ++ " does not exist".toList

def msgDirMissing (rd : PyStr) : PyStr :=
  "Simulation result directory \"".toList ++ rd ++ "\" does not exist".toList

def msgNoAgentFiles (name : PyStr) : PyStr :=
  "No data files found for agent ".toList ++ name

def msgNoSubstanceFiles (name : PyStr) : PyStr :=
  "No data files found for substance ".toList ++ name

/-! ## The script, function by function -/

/-- Embeds `LoadSimulationObjectData(result_dir, agent_info)`: glob
`{result_dir}/{name}-*.pvtu`; exit(1) with a message when empty;
otherwise sort stably by extracted iteration and build the reader.
With at least two files, a filename whose iteration does not parse
raises `ValueError` inside the sort comparator (`Res.err`). -/
def LoadSimulationObjectData (w : World) (resultDir : PyStr) (info : AgentInfo) :
    Res (List PyStr) :=
  let files := w.glob (agentPattern resultDir info.name)
  if files.isEmpty then
    Res.exit1 [.print (msgNoAgentFiles info.name)]
  else if 2 ≤ files.length ∧ ∃ f ∈ files, extractIterationFromFilename f = none then
    Res.err []
  else
    Res.ok [.createUnstructuredGridReader (sortFilesByIteration files)]
      (sortFilesByIteration files)

/-- Embeds `LoadExtracellularSubstanceData(result_dir, substance_info)`: as for
agents, with pattern `{result_dir}/{name}-*.pvti` and an image-data
reader. -/
def LoadExtracellularSubstanceData (w : World) (resultDir : PyStr) (info : SubstanceInfo) :
    Res (List PyStr) :=
  let files := w.glob (substancePattern resultDir info.name)
  if files.isEmpty then
    Res.exit1 [.print (msgNoSubstanceFiles info.name)]
  else if 2 ≤ files.length ∧ ∃ f ∈ files, extractIterationFromFilename f = none then
    Res.err []
  else
    Res.ok [.createImageDataReader (sortFilesByIteration files)]
      (sortFilesByIteration files)

/-- Embeds `[ExtractIterationFromFilename(f) for f in data.FileName]`: raises
(uncaught `ValueError`) at the first malformed filename. -/
def extractIters : List PyStr → Res (List Int)
  | [] => Res.ok [] []
  | f :: rest =>
    match extractIterationFromFilename f with
    | none => Res.err []
    | some i => Res.bind (extractIters rest) fun l => Res.ok [] (i :: l)

/-- The `for agent_info in build_info['agents']` loop: load each agent's
data, hand it to the external `ProcessSimulationObject` hook, and
accumulate the iterations extracted from the reader's file list. -/
def processAgents (w : World) (resultDir : PyStr) : List AgentInfo → Res (List Int)
  | [] => pure []
  | a :: rest => do
    let files ← LoadSimulationObjectData w resultDir a
    emit (.processSimulationObject a.name)
    let iters ← extractIters files
    let more ← processAgents w resultDir rest
    pure (iters ++ more)

/-- The `for substance_info in build_info['extracellular_substances']`
loop. -/
def processSubstances (w : World) (resultDir : PyStr) : List SubstanceInfo → Res (List Int)
  | [] => pure []
  | s :: rest => do
    let files ← LoadExtracellularSubstanceData w resultDir s
    emit (.processExtracellularSubstance s.name)
    let iters ← extractIters files
    let more ← processSubstances w resultDir rest
    pure (iters ++ more)

/-- Embeds `sorted(set(iterations))`. -/
def sortedSet (l : List Int) : List Int :=
  l.dedup.insertionSort (· ≤ ·)

/-- View-setup effects at the top of `BuildDefaultPipeline`. -/
def viewEffs (renderless : Bool) : List Eff :=
  [.createView, .setInteractionMode3D]
    ++ (if renderless then [.disableRenderOnInteraction] else [])

/-- Embeds `BuildDefaultPipeline(json_filename)`. -/
def BuildDefaultPipeline (w : World) (renderless : Bool) (jsonFilename : PyStr) :
    Res Manifest :=
  if w.pathExists jsonFilename then
    let buildInfo := w.manifestOf jsonFilename
    let resultDir := buildInfo.resultDir
    if pyTruthy resultDir && !(w.pathExists resultDir) then
      Res.exit1 [.print (msgDirMissing resultDir)]
    else do
      Res.ok (viewEffs renderless) ()
      let agentIters ← processAgents w resultDir buildInfo.agents
      let substIters ← processSubstances w resultDir buildInfo.substances
      let iterations := sortedSet (agentIters ++ substIters)
      emit (.setTimestepValues iterations)
      emit (.setNumberOfFrames iterations.length)
      if !renderless then emit .updateAnimationUsingDataTimeSteps else pure ()
      pure buildInfo
  else
    Res.exit1 [.print (msgJsonMissing jsonFilename)]

/-- Embeds `WritePvsmFile(build_info)`: `os.chdir(result_dir)` (raises if the
directory does not exist) then `SaveState('{name}.pvsm')`. -/
def WritePvsmFile (w : World) (m : Manifest) : Res Unit :=
  if w.pathExists m.resultDir then
    Res.ok [.chdir m.resultDir, .saveState (m.simName ++ (".pvsm".toList))] ()
  else
    Res.err []

/-- Lines 36-40: `RENDERLESS` is set iff `sys.argv[1]` is
`--bd-renderless`, which is then popped; returns the flag and the
remaining argument tail. -/
def resolveRenderless (argvTail : List PyStr) : Bool × List PyStr :=
  match argvTail with
  | [] => (false, [])
  | a :: rest =>
    if a = "--bd-renderless".toList then (true, rest) else (false, a :: rest)

/-- Module-level effects before `__main__`: the
`PV_BATCH_USE_OFFSCREEN` setdefault, then (if renderless) the
monkey-patches of `Render`/`Show`. -/
def preEffects (renderless : Bool) : List Eff :=
  .ensureOffscreenDefault :: (if renderless then [.installRenderlessPatches] else [])

/-- The whole script run: module-level code, the `__main__` argument
check, `BuildDefaultPipeline`, `WritePvsmFile`. -/
def runScript (w : World) : Res Unit :=
  let rl := resolveRenderless w.argvTail
  Res.bind (Res.ok (preEffects rl.1) ()) fun _ =>
    if rl.2.length = 1 then
      Res.bind (BuildDefaultPipeline w rl.1 (rl.2.headD [])) fun m =>
        WritePvsmFile w m
    else
      Res.exit1 [.print msgUsage]

/-! ## Specification-side views of the run (for stating the claims) -/

/-- All files glob discovery returns for a list of agents, in discovery
order. -/
def discoveredAgentFiles (w : World) (resultDir : PyStr) (as : List AgentInfo) :
    List PyStr :=
  (as.map fun a => w.glob (agentPattern resultDir a.name)).flatten

def discoveredSubstanceFiles (w : World) (resultDir : PyStr) (ss : List SubstanceInfo) :
    List PyStr :=
  (ss.map fun s => w.glob (substancePattern resultDir s.name)).flatten

/-- Every agent and substance file the run discovers. -/
def discoveredFiles (w : World) (m : Manifest) : List PyStr :=
  discoveredAgentFiles w m.resultDir m.agents
    ++ discoveredSubstanceFiles w m.resultDir m.substances

/-- The `TimestepValues` assignments occurring in a trace. -/
def tsAssignments (t : List Eff) : List (List Int) :=
  t.filterMap fun e =>
    match e with
    | .setTimestepValues ts => some ts
    | _ => none

/-- The `NumberOfFrames` assignments occurring in a trace. -/
def framesAssignments (t : List Eff) : List Nat :=
  t.filterMap fun e =>
    match e with
    | .setNumberOfFrames n => some n
    | _ => none

/-! ## Helper lemmas about the loops -/

theorem extractIters_of_all_some {fs : List PyStr}
    (h : ∀ f ∈ fs, (extractIterationFromFilename f).isSome) :
    extractIters fs = .ok [] (fs.filterMap extractIterationFromFilename) := by
  induction fs with
  | nil => rfl
  | cons f rest ih =>
    have hf := h f (by simp)
    rcases hx : extractIterationFromFilename f with _ | i
    · rw [hx] at hf; simp at hf
    · simp only [extractIters, hx, List.filterMap_cons]
      rw [ih (fun g hg => h g (by simp [hg]))]
      rfl

theorem extractIters_ok_inv {fs : List PyStr} {t : List Eff} {l : List Int}
    (h : extractIters fs = .ok t l) :
    t = [] ∧ l = fs.filterMap extractIterationFromFilename
      ∧ ∀ f ∈ fs, (extractIterationFromFilename f).isSome := by
  induction fs generalizing t l with
  | nil =>
    simp only [extractIters] at h
    cases h
    simp
  | cons f rest ih =>
    rcases hx : extractIterationFromFilename f with _ | i
    · simp only [extractIters, hx] at h
      cases h
    · simp only [extractIters, hx] at h
      rcases hr : extractIters rest with t' | t' | ⟨t', l'⟩ <;> rw [hr] at h <;>
        simp only [Res.bind_exit1, Res.bind_err, Res.bind_ok, Res.withTrace_ok] at h
      · cases h
      · cases h
      · cases h
        obtain ⟨h1, h2, h3⟩ := ih hr
        subst h1 h2
        refine ⟨by simp, by simp [hx], ?_⟩
        intro g hg
        rcases List.mem_cons.mp hg with hg2 | hg2
        · simp [hg2, hx]
        · exact h3 g hg2

/-- An agent whose glob is non-empty and whose filenames all parse. -/
def agentOk (w : World) (resultDir : PyStr) (a : AgentInfo) : Prop :=
  w.glob (agentPattern resultDir a.name) ≠ []
    ∧ ∀ f ∈ w.glob (agentPattern resultDir a.name),
        (extractIterationFromFilename f).isSome

def substanceOk (w : World) (resultDir : PyStr) (s : SubstanceInfo) : Prop :=
  w.glob (substancePattern resultDir s.name) ≠ []
    ∧ ∀ f ∈ w.glob (substancePattern resultDir s.name),
        (extractIterationFromFilename f).isSome

theorem LoadSimulationObjectData_of_ok {w : World} {resultDir : PyStr} {a : AgentInfo}
    (h : agentOk w resultDir a) :
    LoadSimulationObjectData w resultDir a
      = .ok [.createUnstructuredGridReader
              (sortFilesByIteration (w.glob (agentPattern resultDir a.name)))]
          (sortFilesByIteration (w.glob (agentPattern resultDir a.name))) := by
  obtain ⟨h1, h2⟩ := h
  simp only [LoadSimulationObjectData]
  rw [if_neg (by simpa using h1), if_neg]
  rintro ⟨-, f, hf, hnone⟩
  have := h2 f hf
  rw [hnone] at this
  simp at this

theorem LoadExtracellularSubstanceData_of_ok {w : World} {resultDir : PyStr}
    {s : SubstanceInfo} (h : substanceOk w resultDir s) :
    LoadExtracellularSubstanceData w resultDir s
      = .ok [.createImageDataReader
              (sortFilesByIteration (w.glob (substancePattern resultDir s.name)))]
          (sortFilesByIteration (w.glob (substancePattern resultDir s.name))) := by
  obtain ⟨h1, h2⟩ := h
  simp only [LoadExtracellularSubstanceData]
  rw [if_neg (by simpa using h1), if_neg]
  rintro ⟨-, f, hf, hnone⟩
  have := h2 f hf
  rw [hnone] at this
  simp at this

theorem LoadSimulationObjectData_ok_inv {w : World} {resultDir : PyStr} {a : AgentInfo}
    {t : List Eff} {fs : List PyStr}
    (h : LoadSimulationObjectData w resultDir a = .ok t fs) :
    fs = sortFilesByIteration (w.glob (agentPattern resultDir a.name))
      ∧ t = [.createUnstructuredGridReader fs]
      ∧ w.glob (agentPattern resultDir a.name) ≠ [] := by
  simp only [LoadSimulationObjectData] at h
  split at h
  · cases h
  · split at h
    · cases h
    · cases h
      refine ⟨rfl, rfl, ?_⟩
      simp_all

theorem LoadExtracellularSubstanceData_ok_inv {w : World} {resultDir : PyStr}
    {s : SubstanceInfo} {t : List Eff} {fs : List PyStr}
    (h : LoadExtracellularSubstanceData w resultDir s = .ok t fs) :
    fs = sortFilesByIteration (w.glob (substancePattern resultDir s.name))
      ∧ t = [.createImageDataReader fs]
      ∧ w.glob (substancePattern resultDir s.name) ≠ [] := by
  simp only [LoadExtracellularSubstanceData] at h
  split at h
  · cases h
  · split at h
    · cases h
    · cases h
      refine ⟨rfl, rfl, ?_⟩
      simp_all

/-- Effects an agent-loop iteration may emit. -/
def isAgentLoopEff (e : Eff) : Prop :=
  (∃ fs, e = .createUnstructuredGridReader fs) ∨ ∃ n, e = .processSimulationObject n

/-- Effects a substance-loop iteration may emit. -/
def isSubstanceLoopEff (e : Eff) : Prop :=
  (∃ fs, e = .createImageDataReader fs) ∨ ∃ n, e = .processExtracellularSubstance n

theorem discoveredAgentFiles_cons (w : World) (rd : PyStr) (a : AgentInfo)
    (rest : List AgentInfo) :
    discoveredAgentFiles w rd (a :: rest)
      = w.glob (agentPattern rd a.name) ++ discoveredAgentFiles w rd rest := by
  simp [discoveredAgentFiles]

theorem discoveredSubstanceFiles_cons (w : World) (rd : PyStr) (s : SubstanceInfo)
    (rest : List SubstanceInfo) :
    discoveredSubstanceFiles w rd (s :: rest)
      = w.glob (substancePattern rd s.name) ++ discoveredSubstanceFiles w rd rest := by
  simp [discoveredSubstanceFiles]

theorem processAgents_ok_of_allOk {w : World} {rd : PyStr} {as : List AgentInfo}
    (h : ∀ a ∈ as, agentOk w rd a) :
    ∃ t l, processAgents w rd as = .ok t l
      ∧ List.Perm l ((discoveredAgentFiles w rd as).filterMap extractIterationFromFilename)
      ∧ ∀ e ∈ t, isAgentLoopEff e := by
  induction as with
  | nil =>
    refine ⟨[], [], rfl, ?_, by simp⟩
    simp [discoveredAgentFiles]
  | cons a rest ih =>
    have ha := h a (by simp)
    obtain ⟨t, l, hok, hperm, heff⟩ := ih (fun x hx => h x (by simp [hx]))
    have hsorted : ∀ f ∈ sortFilesByIteration (w.glob (agentPattern rd a.name)),
        (extractIterationFromFilename f).isSome := by
      intro f hf
      exact ha.2 f ((sortFilesByIteration_perm _).mem_iff.mp hf)
    refine ⟨.createUnstructuredGridReader
        (sortFilesByIteration (w.glob (agentPattern rd a.name)))
        :: .processSimulationObject a.name :: t,
      (sortFilesByIteration (w.glob (agentPattern rd a.name))).filterMap
        extractIterationFromFilename ++ l, ?_, ?_, ?_⟩
    · simp only [processAgents, Res.bind_def, LoadSimulationObjectData_of_ok ha,
        Res.bind_ok, emit, extractIters_of_all_some hsorted, hok, Res.withTrace_ok,
        Res.pure_def]
      simp
    · rw [discoveredAgentFiles_cons, List.filterMap_append]
      exact List.Perm.append ((sortFilesByIteration_perm _).filterMap _) hperm
    · intro e he
      rcases List.mem_cons.mp he with he2 | he2
      · exact Or.inl ⟨_, he2⟩
      rcases List.mem_cons.mp he2 with he3 | he3
      · exact Or.inr ⟨_, he3⟩
      · exact heff e he3

theorem processSubstances_ok_of_allOk {w : World} {rd : PyStr} {ss : List SubstanceInfo}
    (h : ∀ s ∈ ss, substanceOk w rd s) :
    ∃ t l, processSubstances w rd ss = .ok t l
      ∧ List.Perm l ((discoveredSubstanceFiles w rd ss).filterMap extractIterationFromFilename)
      ∧ ∀ e ∈ t, isSubstanceLoopEff e := by
  induction ss with
  | nil =>
    refine ⟨[], [], rfl, ?_, by simp⟩
    simp [discoveredSubstanceFiles]
  | cons s rest ih =>
    have hs := h s (by simp)
    obtain ⟨t, l, hok, hperm, heff⟩ := ih (fun x hx => h x (by simp [hx]))
    have hsorted : ∀ f ∈ sortFilesByIteration (w.glob (substancePattern rd s.name)),
        (extractIterationFromFilename f).isSome := by
      intro f hf
      exact hs.2 f ((sortFilesByIteration_perm _).mem_iff.mp hf)
    refine ⟨.createImageDataReader
        (sortFilesByIteration (w.glob (substancePattern rd s.name)))
        :: .processExtracellularSubstance s.name :: t,
      (sortFilesByIteration (w.glob (substancePattern rd s.name))).filterMap
        extractIterationFromFilename ++ l, ?_, ?_, ?_⟩
    · simp only [processSubstances, Res.bind_def, LoadExtracellularSubstanceData_of_ok hs,
        Res.bind_ok, emit, extractIters_of_all_some hsorted, hok, Res.withTrace_ok,
        Res.pure_def]
      simp
    · rw [discoveredSubstanceFiles_cons, List.filterMap_append]
      exact List.Perm.append ((sortFilesByIteration_perm _).filterMap _) hperm
    · intro e he
      rcases List.mem_cons.mp he with he2 | he2
      · exact Or.inl ⟨_, he2⟩
      rcases List.mem_cons.mp he2 with he3 | he3
      · exact Or.inr ⟨_, he3⟩
      · exact heff e he3

theorem processAgents_ok_inv {w : World} {rd : PyStr} {as : List AgentInfo}
    {t : List Eff} {l : List Int} (h : processAgents w rd as = .ok t l) :
    List.Perm l ((discoveredAgentFiles w rd as).filterMap extractIterationFromFilename)
      ∧ (∀ e ∈ t, isAgentLoopEff e) ∧ ∀ a ∈ as, agentOk w rd a := by
  induction as generalizing t l with
  | nil =>
    simp only [processAgents, Res.pure_def] at h
    cases h
    exact ⟨by simp [discoveredAgentFiles], by simp, by simp⟩
  | cons a rest ih =>
    simp only [processAgents, Res.bind_def] at h
    rcases hL : LoadSimulationObjectData w rd a with tL | tL | ⟨tL, fs⟩ <;>
      rw [hL] at h <;>
      simp only [Res.bind_exit1, Res.bind_err, Res.bind_ok, emit, Res.withTrace_ok] at h
    · cases h
    · cases h
    rcases hE : extractIters fs with tE | tE | ⟨tE, lE⟩ <;> rw [hE] at h <;>
      simp only [Res.bind_exit1, Res.bind_err, Res.bind_ok, Res.withTrace_exit1,
        Res.withTrace_err, Res.withTrace_ok] at h
    · cases h
    · cases h
    rcases hR : processAgents w rd rest with tR | tR | ⟨tR, lR⟩ <;> rw [hR] at h <;>
      simp only [Res.bind_exit1, Res.bind_err, Res.bind_ok, Res.withTrace_exit1,
        Res.withTrace_err, Res.withTrace_ok, Res.pure_def, List.append_nil] at h
    · cases h
    · cases h
    cases h
    obtain ⟨hfs, htL, hne⟩ := LoadSimulationObjectData_ok_inv hL
    obtain ⟨htE, hlE, hsome⟩ := extractIters_ok_inv hE
    obtain ⟨hperm, heff, hok⟩ := ih hR
    subst hfs htL htE hlE
    refine ⟨?_, ?_, ?_⟩
    · rw [discoveredAgentFiles_cons, List.filterMap_append]
      exact List.Perm.append ((sortFilesByIteration_perm _).filterMap _) hperm
    · intro e he
      simp only [List.append_nil, List.cons_append, List.nil_append] at he
      rcases List.mem_cons.mp he with he2 | he2
      · exact Or.inl ⟨_, he2⟩
      rcases List.mem_cons.mp he2 with he3 | he3
      · exact Or.inr ⟨_, he3⟩
      · exact heff e he3
    · intro x hx
      rcases List.mem_cons.mp hx with hx2 | hx2
      · subst hx2
        refine ⟨hne, ?_⟩
        intro f hf
        exact hsome f ((sortFilesByIteration_perm _).mem_iff.mpr hf)
      · exact hok x hx2

theorem processSubstances_ok_inv {w : World} {rd : PyStr} {ss : List SubstanceInfo}
    {t : List Eff} {l : List Int} (h : processSubstances w rd ss = .ok t l) :
    List.Perm l ((discoveredSubstanceFiles w rd ss).filterMap extractIterationFromFilename)
      ∧ (∀ e ∈ t, isSubstanceLoopEff e) ∧ ∀ s ∈ ss, substanceOk w rd s := by
  induction ss generalizing t l with
  | nil =>
    simp only [processSubstances, Res.pure_def] at h
    cases h
    exact ⟨by simp [discoveredSubstanceFiles], by simp, by simp⟩
  | cons s rest ih =>
    simp only [processSubstances, Res.bind_def] at h
    rcases hL : LoadExtracellularSubstanceData w rd s with tL | tL | ⟨tL, fs⟩ <;>
      rw [hL] at h <;>
      simp only [Res.bind_exit1, Res.bind_err, Res.bind_ok, emit, Res.withTrace_ok] at h
    · cases h
    · cases h
    rcases hE : extractIters fs with tE | tE | ⟨tE, lE⟩ <;> rw [hE] at h <;>
      simp only [Res.bind_exit1, Res.bind_err, Res.bind_ok, Res.withTrace_exit1,
        Res.withTrace_err, Res.withTrace_ok] at h
    · cases h
    · cases h
    rcases hR : processSubstances w rd rest with tR | tR | ⟨tR, lR⟩ <;> rw [hR] at h <;>
      simp only [Res.bind_exit1, Res.bind_err, Res.bind_ok, Res.withTrace_exit1,
        Res.withTrace_err, Res.withTrace_ok, Res.pure_def, List.append_nil] at h
    · cases h
    · cases h
    cases h
    obtain ⟨hfs, htL, hne⟩ := LoadExtracellularSubstanceData_ok_inv hL
    obtain ⟨htE, hlE, hsome⟩ := extractIters_ok_inv hE
    obtain ⟨hperm, heff, hok⟩ := ih hR
    subst hfs htL htE hlE
    refine ⟨?_, ?_, ?_⟩
    · rw [discoveredSubstanceFiles_cons, List.filterMap_append]
      exact List.Perm.append ((sortFilesByIteration_perm _).filterMap _) hperm
    · intro e he
      simp only [List.append_nil, List.cons_append, List.nil_append] at he
      rcases List.mem_cons.mp he with he2 | he2
      · exact Or.inl ⟨_, he2⟩
      rcases List.mem_cons.mp he2 with he3 | he3
      · exact Or.inr ⟨_, he3⟩
      · exact heff e he3
    · intro x hx
      rcases List.mem_cons.mp hx with hx2 | hx2
      · subst hx2
        refine ⟨hne, ?_⟩
        intro f hf
        exact hsome f ((sortFilesByIteration_perm _).mem_iff.mpr hf)
      · exact hok x hx2

theorem processAgents_noFiles {w : World} {rd : PyStr} (a : AgentInfo)
    (as2 : List AgentInfo) :
    ∀ {as1 : List AgentInfo}, (∀ x ∈ as1, agentOk w rd x) →
    w.glob (agentPattern rd a.name) = [] →
    ∃ t, processAgents w rd (as1 ++ a :: as2)
        = .exit1 (t ++ [.print (msgNoAgentFiles a.name)])
      ∧ ∀ e ∈ t, isAgentLoopEff e := by
  intro as1
  induction as1 with
  | nil =>
    intro _ hglob
    refine ⟨[], ?_, by simp⟩
    have hload : LoadSimulationObjectData w rd a = .exit1 [.print (msgNoAgentFiles a.name)] := by
      simp only [LoadSimulationObjectData, hglob]
      rfl
    simp only [List.nil_append, processAgents, Res.bind_def, hload, Res.bind_exit1]
  | cons x rest ih =>
    intro hok hglob
    have hx := hok x (by simp)
    obtain ⟨t, hrec, heff⟩ := ih (fun y hy => hok y (by simp [hy])) hglob
    have hsorted : ∀ f ∈ sortFilesByIteration (w.glob (agentPattern rd x.name)),
        (extractIterationFromFilename f).isSome := by
      intro f hf
      exact hx.2 f ((sortFilesByIteration_perm _).mem_iff.mp hf)
    refine ⟨.createUnstructuredGridReader
        (sortFilesByIteration (w.glob (agentPattern rd x.name)))
        :: .processSimulationObject x.name :: t, ?_, ?_⟩
    · simp only [List.cons_append, processAgents, Res.bind_def,
        LoadSimulationObjectData_of_ok hx, Res.bind_ok, emit,
        extractIters_of_all_some hsorted, Res.withTrace_ok, List.append_eq]
      rw [hrec]
      simp [Res.bind]
    · intro e he
      rcases List.mem_cons.mp he with he2 | he2
      · exact Or.inl ⟨_, he2⟩
      rcases List.mem_cons.mp he2 with he3 | he3
      · exact Or.inr ⟨_, he3⟩
      · exact heff e he3

theorem processSubstances_noFiles {w : World} {rd : PyStr} (s : SubstanceInfo)
    (ss2 : List SubstanceInfo) :
    ∀ {ss1 : List SubstanceInfo}, (∀ x ∈ ss1, substanceOk w rd x) →
    w.glob (substancePattern rd s.name) = [] →
    ∃ t, processSubstances w rd (ss1 ++ s :: ss2)
        = .exit1 (t ++ [.print (msgNoSubstanceFiles s.name)])
      ∧ ∀ e ∈ t, isSubstanceLoopEff e := by
  intro ss1
  induction ss1 with
  | nil =>
    intro _ hglob
    refine ⟨[], ?_, by simp⟩
    have hload : LoadExtracellularSubstanceData w rd s
        = .exit1 [.print (msgNoSubstanceFiles s.name)] := by
      simp only [LoadExtracellularSubstanceData, hglob]
      rfl
    simp only [List.nil_append, processSubstances, Res.bind_def, hload, Res.bind_exit1]
  | cons x rest ih =>
    intro hok hglob
    have hx := hok x (by simp)
    obtain ⟨t, hrec, heff⟩ := ih (fun y hy => hok y (by simp [hy])) hglob
    have hsorted : ∀ f ∈ sortFilesByIteration (w.glob (substancePattern rd x.name)),
        (extractIterationFromFilename f).isSome := by
      intro f hf
      exact hx.2 f ((sortFilesByIteration_perm _).mem_iff.mp hf)
    refine ⟨.createImageDataReader
        (sortFilesByIteration (w.glob (substancePattern rd x.name)))
        :: .processExtracellularSubstance x.name :: t, ?_, ?_⟩
    · simp only [List.cons_append, processSubstances, Res.bind_def,
        LoadExtracellularSubstanceData_of_ok hx, Res.bind_ok, emit,
        extractIters_of_all_some hsorted, Res.withTrace_ok, List.append_eq]
      rw [hrec]
      simp [Res.bind]
    · intro e he
      rcases List.mem_cons.mp he with he2 | he2
      · exact Or.inl ⟨_, he2⟩
      rcases List.mem_cons.mp he2 with he3 | he3
      · exact Or.inr ⟨_, he3⟩
      · exact heff e he3

/-- Trailing timeline effects of `BuildDefaultPipeline`. -/
def pipeTail (renderless : Bool) (ts : List Int) : List Eff :=
  [.setTimestepValues ts, .setNumberOfFrames ts.length]
    ++ (if renderless then [] else [.updateAnimationUsingDataTimeSteps])

theorem BuildDefaultPipeline_ok_inv {w : World} {r : Bool} {jf : PyStr}
    {t : List Eff} {m : Manifest} (h : BuildDefaultPipeline w r jf = .ok t m) :
    w.pathExists jf = true ∧ m = w.manifestOf jf
      ∧ ∃ tA lA tS lS,
        processAgents w m.resultDir m.agents = .ok tA lA
        ∧ processSubstances w m.resultDir m.substances = .ok tS lS
        ∧ t = viewEffs r ++ tA ++ tS ++ pipeTail r (sortedSet (lA ++ lS)) := by
  simp only [BuildDefaultPipeline, Res.bind_def, emit] at h
  split at h
  case isFalse => cases h
  case isTrue hjf =>
  split at h
  case isTrue => cases h
  case isFalse hdir =>
  rcases hA : processAgents w (w.manifestOf jf).resultDir (w.manifestOf jf).agents
      with tA | tA | ⟨tA, lA⟩ <;> rw [hA] at h <;>
    simp only [Res.bind_exit1, Res.bind_err, Res.bind_ok, Res.withTrace_exit1,
      Res.withTrace_err, Res.withTrace_ok] at h
  · cases h
  · cases h
  rcases hS : processSubstances w (w.manifestOf jf).resultDir (w.manifestOf jf).substances
      with tS | tS | ⟨tS, lS⟩ <;> rw [hS] at h <;>
    simp only [Res.bind_exit1, Res.bind_err, Res.bind_ok, Res.withTrace_exit1,
      Res.withTrace_err, Res.withTrace_ok] at h
  · cases h
  · cases h
  cases r <;>
    simp only [Bool.not_false, Bool.not_true, if_true, if_false, Res.bind_ok,
      Res.withTrace_ok, Res.pure_def] at h <;>
    cases h <;>
    refine ⟨hjf, rfl, tA, lA, tS, lS, hA, hS, ?_⟩ <;>
    simp [viewEffs, pipeTail, sortedSet]

theorem LoadSimulationObjectData_exit1_inv {w : World} {rd : PyStr} {a : AgentInfo}
    {t : List Eff} (h : LoadSimulationObjectData w rd a = .exit1 t) :
    t = [.print (msgNoAgentFiles a.name)]
      ∧ w.glob (agentPattern rd a.name) = [] := by
  simp only [LoadSimulationObjectData] at h
  split at h
  · cases h
    simp_all
  · split at h
    · cases h
    · cases h

theorem LoadExtracellularSubstanceData_exit1_inv {w : World} {rd : PyStr}
    {s : SubstanceInfo} {t : List Eff}
    (h : LoadExtracellularSubstanceData w rd s = .exit1 t) :
    t = [.print (msgNoSubstanceFiles s.name)]
      ∧ w.glob (substancePattern rd s.name) = [] := by
  simp only [LoadExtracellularSubstanceData] at h
  split at h
  · cases h
    simp_all
  · split at h
    · cases h
    · cases h

theorem LoadSimulationObjectData_err_inv {w : World} {rd : PyStr} {a : AgentInfo}
    {t : List Eff} (h : LoadSimulationObjectData w rd a = .err t) : t = [] := by
  simp only [LoadSimulationObjectData] at h
  split at h
  · cases h
  · split at h
    · cases h
      rfl
    · cases h

theorem LoadExtracellularSubstanceData_err_inv {w : World} {rd : PyStr}
    {s : SubstanceInfo} {t : List Eff}
    (h : LoadExtracellularSubstanceData w rd s = .err t) : t = [] := by
  simp only [LoadExtracellularSubstanceData] at h
  split at h
  · cases h
  · split at h
    · cases h
      rfl
    · cases h

theorem extractIters_ne_exit1 (fs : List PyStr) (t : List Eff) :
    extractIters fs ≠ .exit1 t := by
  induction fs generalizing t with
  | nil => intro h; cases h
  | cons f rest ih =>
    intro h
    simp only [extractIters] at h
    rcases hx : extractIterationFromFilename f with _ | i <;> rw [hx] at h
    · cases h
    · rcases hr : extractIters rest with t' | t' | ⟨t', l'⟩ <;> rw [hr] at h <;>
        simp only [Res.bind_exit1, Res.bind_err, Res.bind_ok, Res.withTrace_ok] at h
      · exact ih t' hr
      · cases h
      · cases h

theorem extractIters_err_inv {fs : List PyStr} {t : List Eff}
    (h : extractIters fs = .err t) : t = [] := by
  induction fs generalizing t with
  | nil => cases h
  | cons f rest ih =>
    simp only [extractIters] at h
    rcases hx : extractIterationFromFilename f with _ | i <;> rw [hx] at h
    · cases h
      rfl
    · rcases hr : extractIters rest with t' | t' | ⟨t', l'⟩ <;> rw [hr] at h <;>
        simp only [Res.bind_exit1, Res.bind_err, Res.bind_ok, Res.withTrace_ok] at h
      · cases h
      · cases h
        exact ih hr
      · cases h

theorem processAgents_exit1_inv {w : World} {rd : PyStr} {as : List AgentInfo}
    {t : List Eff} (h : processAgents w rd as = .exit1 t) :
    ∃ t0 n, t = t0 ++ [.print (msgNoAgentFiles n)] ∧ ∀ e ∈ t0, isAgentLoopEff e := by
  induction as generalizing t with
  | nil => cases h
  | cons a rest ih =>
    simp only [processAgents, Res.bind_def] at h
    rcases hL : LoadSimulationObjectData w rd a with tL | tL | ⟨tL, fs⟩ <;>
      rw [hL] at h <;>
      simp only [Res.bind_exit1, Res.bind_err, Res.bind_ok, emit, Res.withTrace_ok] at h
    · cases h
      obtain ⟨ht, -⟩ := LoadSimulationObjectData_exit1_inv hL
      exact ⟨[], a.name, by simp [ht], by simp⟩
    · cases h
    rcases hE : extractIters fs with tE | tE | ⟨tE, lE⟩ <;> rw [hE] at h <;>
      simp only [Res.bind_exit1, Res.bind_err, Res.bind_ok, Res.withTrace_exit1,
        Res.withTrace_err, Res.withTrace_ok] at h
    · exact absurd hE (extractIters_ne_exit1 fs tE)
    · cases h
    rcases hR : processAgents w rd rest with tR | tR | ⟨tR, lR⟩ <;> rw [hR] at h <;>
      simp only [Res.bind_exit1, Res.bind_err, Res.bind_ok, Res.withTrace_exit1,
        Res.withTrace_err, Res.withTrace_ok, Res.pure_def, List.append_nil] at h
    case exit1 =>
      cases h
      obtain ⟨hfs, htL, -⟩ := LoadSimulationObjectData_ok_inv hL
      obtain ⟨htE, -, -⟩ := extractIters_ok_inv hE
      obtain ⟨t0, n, ht0, heff⟩ := ih hR
      subst htL htE ht0
      refine ⟨.createUnstructuredGridReader fs :: .processSimulationObject a.name :: t0,
        n, by simp, ?_⟩
      intro e he
      rcases List.mem_cons.mp he with he2 | he2
      · exact Or.inl ⟨_, he2⟩
      rcases List.mem_cons.mp he2 with he3 | he3
      · exact Or.inr ⟨_, he3⟩
      · exact heff e he3
    · cases h
    · cases h

theorem processSubstances_exit1_inv {w : World} {rd : PyStr} {ss : List SubstanceInfo}
    {t : List Eff} (h : processSubstances w rd ss = .exit1 t) :
    ∃ t0 n, t = t0 ++ [.print (msgNoSubstanceFiles n)] ∧ ∀ e ∈ t0, isSubstanceLoopEff e := by
  induction ss generalizing t with
  | nil => cases h
  | cons s rest ih =>
    simp only [processSubstances, Res.bind_def] at h
    rcases hL : LoadExtracellularSubstanceData w rd s with tL | tL | ⟨tL, fs⟩ <;>
      rw [hL] at h <;>
      simp only [Res.bind_exit1, Res.bind_err, Res.bind_ok, emit, Res.withTrace_ok] at h
    · cases h
      obtain ⟨ht, -⟩ := LoadExtracellularSubstanceData_exit1_inv hL
      exact ⟨[], s.name, by simp [ht], by simp⟩
    · cases h
    rcases hE : extractIters fs with tE | tE | ⟨tE, lE⟩ <;> rw [hE] at h <;>
      simp only [Res.bind_exit1, Res.bind_err, Res.bind_ok, Res.withTrace_exit1,
        Res.withTrace_err, Res.withTrace_ok] at h
    · exact absurd hE (extractIters_ne_exit1 fs tE)
    · cases h
    rcases hR : processSubstances w rd rest with tR | tR | ⟨tR, lR⟩ <;> rw [hR] at h <;>
      simp only [Res.bind_exit1, Res.bind_err, Res.bind_ok, Res.withTrace_exit1,
        Res.withTrace_err, Res.withTrace_ok, Res.pure_def, List.append_nil] at h
    case exit1 =>
      cases h
      obtain ⟨hfs, htL, -⟩ := LoadExtracellularSubstanceData_ok_inv hL
      obtain ⟨htE, -, -⟩ := extractIters_ok_inv hE
      obtain ⟨t0, n, ht0, heff⟩ := ih hR
      subst htL htE ht0
      refine ⟨.createImageDataReader fs :: .processExtracellularSubstance s.name :: t0,
        n, by simp, ?_⟩
      intro e he
      rcases List.mem_cons.mp he with he2 | he2
      · exact Or.inl ⟨_, he2⟩
      rcases List.mem_cons.mp he2 with he3 | he3
      · exact Or.inr ⟨_, he3⟩
      · exact heff e he3
    · cases h
    · cases h

theorem processAgents_err_inv {w : World} {rd : PyStr} {as : List AgentInfo}
    {t : List Eff} (h : processAgents w rd as = .err t) :
    ∀ e ∈ t, isAgentLoopEff e := by
  induction as generalizing t with
  | nil => cases h
  | cons a rest ih =>
    simp only [processAgents, Res.bind_def] at h
    rcases hL : LoadSimulationObjectData w rd a with tL | tL | ⟨tL, fs⟩ <;>
      rw [hL] at h <;>
      simp only [Res.bind_exit1, Res.bind_err, Res.bind_ok, emit, Res.withTrace_ok] at h
    · cases h
    · cases h
      simp [LoadSimulationObjectData_err_inv hL]
    rcases hE : extractIters fs with tE | tE | ⟨tE, lE⟩ <;> rw [hE] at h <;>
      simp only [Res.bind_exit1, Res.bind_err, Res.bind_ok, Res.withTrace_exit1,
        Res.withTrace_err, Res.withTrace_ok] at h
    · exact absurd hE (extractIters_ne_exit1 fs tE)
    · cases h
      obtain ⟨hfs, htL, -⟩ := LoadSimulationObjectData_ok_inv hL
      rw [extractIters_err_inv hE] at *
      subst htL
      intro e he
      simp only [List.append_nil] at he
      rcases List.mem_cons.mp he with he2 | he2
      · exact Or.inl ⟨_, he2⟩
      rcases List.mem_cons.mp he2 with he3 | he3
      · exact Or.inr ⟨_, he3⟩
      · cases he3
    rcases hR : processAgents w rd rest with tR | tR | ⟨tR, lR⟩ <;> rw [hR] at h <;>
      simp only [Res.bind_exit1, Res.bind_err, Res.bind_ok, Res.withTrace_exit1,
        Res.withTrace_err, Res.withTrace_ok, Res.pure_def, List.append_nil] at h
    · cases h
    case err =>
      cases h
      obtain ⟨hfs, htL, -⟩ := LoadSimulationObjectData_ok_inv hL
      obtain ⟨htE, -, -⟩ := extractIters_ok_inv hE
      subst htL htE
      intro e he
      rcases List.mem_cons.mp he with he2 | he2
      · exact Or.inl ⟨_, he2⟩
      rcases List.mem_cons.mp he2 with he3 | he3
      · exact Or.inr ⟨_, he3⟩
      · exact ih hR e he3
    · cases h

theorem processSubstances_err_inv {w : World} {rd : PyStr} {ss : List SubstanceInfo}
    {t : List Eff} (h : processSubstances w rd ss = .err t) :
    ∀ e ∈ t, isSubstanceLoopEff e := by
  induction ss generalizing t with
  | nil => cases h
  | cons s rest ih =>
    simp only [processSubstances, Res.bind_def] at h
    rcases hL : LoadExtracellularSubstanceData w rd s with tL | tL | ⟨tL, fs⟩ <;>
      rw [hL] at h <;>
      simp only [Res.bind_exit1, Res.bind_err, Res.bind_ok, emit, Res.withTrace_ok] at h
    · cases h
    · cases h
      simp [LoadExtracellularSubstanceData_err_inv hL]
    rcases hE : extractIters fs with tE | tE | ⟨tE, lE⟩ <;> rw [hE] at h <;>
      simp only [Res.bind_exit1, Res.bind_err, Res.bind_ok, Res.withTrace_exit1,
        Res.withTrace_err, Res.withTrace_ok] at h
    · exact absurd hE (extractIters_ne_exit1 fs tE)
    · cases h
      obtain ⟨hfs, htL, -⟩ := LoadExtracellularSubstanceData_ok_inv hL
      rw [extractIters_err_inv hE] at *
      subst htL
      intro e he
      simp only [List.append_nil] at he
      rcases List.mem_cons.mp he with he2 | he2
      · exact Or.inl ⟨_, he2⟩
      rcases List.mem_cons.mp he2 with he3 | he3
      · exact Or.inr ⟨_, he3⟩
      · cases he3
    rcases hR : processSubstances w rd rest with tR | tR | ⟨tR, lR⟩ <;> rw [hR] at h <;>
      simp only [Res.bind_exit1, Res.bind_err, Res.bind_ok, Res.withTrace_exit1,
        Res.withTrace_err, Res.withTrace_ok, Res.pure_def, List.append_nil] at h
    · cases h
    case err =>
      cases h
      obtain ⟨hfs, htL, -⟩ := LoadExtracellularSubstanceData_ok_inv hL
      obtain ⟨htE, -, -⟩ := extractIters_ok_inv hE
      subst htL htE
      intro e he
      rcases List.mem_cons.mp he with he2 | he2
      · exact Or.inl ⟨_, he2⟩
      rcases List.mem_cons.mp he2 with he3 | he3
      · exact Or.inr ⟨_, he3⟩
      · exact ih hR e he3
    · cases h

theorem isAgentLoopEff_ne_print {e : Eff} {msg : PyStr} (h : isAgentLoopEff e) :
    e ≠ .print msg := by
  rcases h with ⟨fs, rfl⟩ | ⟨n, rfl⟩ <;> simp

theorem isSubstanceLoopEff_ne_print {e : Eff} {msg : PyStr} (h : isSubstanceLoopEff e) :
    e ≠ .print msg := by
  rcases h with ⟨fs, rfl⟩ | ⟨n, rfl⟩ <;> simp

theorem isAgentLoopEff_ne_saveState {e : Eff} {n : PyStr} (h : isAgentLoopEff e) :
    e ≠ .saveState n := by
  rcases h with ⟨fs, rfl⟩ | ⟨m, rfl⟩ <;> simp

theorem isSubstanceLoopEff_ne_saveState {e : Eff} {n : PyStr} (h : isSubstanceLoopEff e) :
    e ≠ .saveState n := by
  rcases h with ⟨fs, rfl⟩ | ⟨m, rfl⟩ <;> simp

theorem BuildDefaultPipeline_jsonMissing {w : World} {r : Bool} {jf : PyStr}
    (h : w.pathExists jf = false) :
    BuildDefaultPipeline w r jf = .exit1 [.print (msgJsonMissing jf)] := by
  simp [BuildDefaultPipeline, h]

theorem BuildDefaultPipeline_dirMissing {w : World} {r : Bool} {jf : PyStr}
    (hjf : w.pathExists jf = true)
    (hne : pyTruthy (w.manifestOf jf).resultDir = true)
    (hdir : w.pathExists (w.manifestOf jf).resultDir = false) :
    BuildDefaultPipeline w r jf
      = .exit1 [.print (msgDirMissing (w.manifestOf jf).resultDir)] := by
  simp [BuildDefaultPipeline, hjf, hne, hdir]

theorem BuildDefaultPipeline_agentsExit1 {w : World} {r : Bool} {jf : PyStr}
    {tA : List Eff} (hjf : w.pathExists jf = true)
    (hdir : (pyTruthy (w.manifestOf jf).resultDir
      && !(w.pathExists (w.manifestOf jf).resultDir)) = false)
    (hA : processAgents w (w.manifestOf jf).resultDir (w.manifestOf jf).agents
      = .exit1 tA) :
    BuildDefaultPipeline w r jf = .exit1 (viewEffs r ++ tA) := by
  simp only [BuildDefaultPipeline, hjf, if_true, hdir, Bool.false_eq_true, if_false,
    Res.bind_def, Res.bind_ok, hA, Res.bind_exit1, Res.withTrace_exit1]

theorem BuildDefaultPipeline_substancesExit1 {w : World} {r : Bool} {jf : PyStr}
    {tA : List Eff} {lA : List Int} {tS : List Eff} (hjf : w.pathExists jf = true)
    (hdir : (pyTruthy (w.manifestOf jf).resultDir
      && !(w.pathExists (w.manifestOf jf).resultDir)) = false)
    (hA : processAgents w (w.manifestOf jf).resultDir (w.manifestOf jf).agents
      = .ok tA lA)
    (hS : processSubstances w (w.manifestOf jf).resultDir (w.manifestOf jf).substances
      = .exit1 tS) :
    BuildDefaultPipeline w r jf = .exit1 (viewEffs r ++ (tA ++ tS)) := by
  simp only [BuildDefaultPipeline, hjf, if_true, hdir, Bool.false_eq_true, if_false,
    Res.bind_def, Res.bind_ok, hA, hS, Res.bind_exit1, Res.withTrace_exit1]

theorem BuildDefaultPipeline_trace_pastDirCheck {w : World} {r : Bool} {jf : PyStr}
    (hjf : w.pathExists jf = true)
    (hdir : (pyTruthy (w.manifestOf jf).resultDir
      && !(w.pathExists (w.manifestOf jf).resultDir)) = false) :
    ∃ t2, (BuildDefaultPipeline w r jf).trace = viewEffs r ++ t2
      ∧ ∀ msg, Eff.print msg ∈ t2 →
          (∃ n, msg = msgNoAgentFiles n) ∨ ∃ n, msg = msgNoSubstanceFiles n := by
  rcases hA : processAgents w (w.manifestOf jf).resultDir (w.manifestOf jf).agents
      with tA | tA | ⟨tA, lA⟩
  · refine ⟨tA, ?_, ?_⟩
    · rw [BuildDefaultPipeline_agentsExit1 hjf hdir hA]
      rfl
    · intro msg hmem
      obtain ⟨t0, n, rfl, heff⟩ := processAgents_exit1_inv hA
      rcases List.mem_append.mp hmem with hm | hm
      · exact absurd rfl (isAgentLoopEff_ne_print (heff _ hm))
      · simp only [List.mem_singleton] at hm
        cases hm
        exact Or.inl ⟨n, rfl⟩
  · refine ⟨tA, ?_, ?_⟩
    · simp only [BuildDefaultPipeline, hjf, if_true, hdir, Bool.false_eq_true, if_false,
        Res.bind_def, Res.bind_ok, hA, Res.bind_err, Res.withTrace_err]
      rfl
    · intro msg hmem
      exact absurd rfl (isAgentLoopEff_ne_print (processAgents_err_inv hA (.print msg) hmem))
  rcases hS : processSubstances w (w.manifestOf jf).resultDir (w.manifestOf jf).substances
      with tS | tS | ⟨tS, lS⟩
  · refine ⟨tA ++ tS, ?_, ?_⟩
    · rw [BuildDefaultPipeline_substancesExit1 hjf hdir hA hS]
      rfl
    · intro msg hmem
      obtain ⟨-, heffA, -⟩ := processAgents_ok_inv hA
      obtain ⟨t0, n, rfl, heffS⟩ := processSubstances_exit1_inv hS
      rcases List.mem_append.mp hmem with hm | hm
      · exact absurd rfl (isAgentLoopEff_ne_print (heffA _ hm))
      rcases List.mem_append.mp hm with hm2 | hm2
      · exact absurd rfl (isSubstanceLoopEff_ne_print (heffS _ hm2))
      · simp only [List.mem_singleton] at hm2
        cases hm2
        exact Or.inr ⟨n, rfl⟩
  · refine ⟨tA ++ tS, ?_, ?_⟩
    · simp only [BuildDefaultPipeline, hjf, if_true, hdir, Bool.false_eq_true, if_false,
        Res.bind_def, Res.bind_ok, hA, hS, Res.bind_err, Res.withTrace_err,
        List.append_assoc]
      rfl
    · intro msg hmem
      obtain ⟨-, heffA, -⟩ := processAgents_ok_inv hA
      rcases List.mem_append.mp hmem with hm | hm
      · exact absurd rfl (isAgentLoopEff_ne_print (heffA _ hm))
      · exact absurd rfl
          (isSubstanceLoopEff_ne_print (processSubstances_err_inv hS (.print msg) hm))
  · refine ⟨tA ++ tS ++ pipeTail r (sortedSet (lA ++ lS)), ?_, ?_⟩
    · cases r <;>
        simp only [BuildDefaultPipeline, hjf, if_true, hdir, Bool.false_eq_true, if_false,
          Res.bind_def, Res.bind_ok, hA, hS, emit, Res.withTrace_ok, Res.pure_def,
          Bool.not_false, Bool.not_true, Res.trace, pipeTail, sortedSet] <;>
        simp
    · intro msg hmem
      obtain ⟨-, heffA, -⟩ := processAgents_ok_inv hA
      obtain ⟨-, heffS, -⟩ := processSubstances_ok_inv hS
      rcases List.mem_append.mp hmem with hm | hm
      rcases List.mem_append.mp hm with hm2 | hm2
      · exact absurd rfl (isAgentLoopEff_ne_print (heffA _ hm2))
      · exact absurd rfl (isSubstanceLoopEff_ne_print (heffS _ hm2))
      · cases r <;> simp [pipeTail] at hm

theorem runScript_badArgs {w : World}
    (h : (resolveRenderless w.argvTail).2.length ≠ 1) :
    runScript w
      = .exit1 (preEffects (resolveRenderless w.argvTail).1 ++ [.print msgUsage]) := by
  simp [runScript, h]

theorem runScript_validArgs {w : World} {jf : PyStr}
    (h : (resolveRenderless w.argvTail).2 = [jf]) :
    runScript w = Res.withTrace (preEffects (resolveRenderless w.argvTail).1)
      (Res.bind (BuildDefaultPipeline w (resolveRenderless w.argvTail).1 jf)
        fun m => WritePvsmFile w m) := by
  simp [runScript, h]

/-! ## `sorted(set(...))` properties -/

theorem sortedSet_mem (l : List Int) (x : Int) : x ∈ sortedSet l ↔ x ∈ l := by
  simp [sortedSet, List.mem_insertionSort]

theorem sortedSet_length (l : List Int) : (sortedSet l).length = l.dedup.length := by
  simp [sortedSet]

theorem sortedSet_sorted (l : List Int) : (sortedSet l).Pairwise (· < ·) := by
  have hle : (sortedSet l).Pairwise (· ≤ ·) :=
    List.sorted_insertionSort (· ≤ ·) l.dedup
  have hnd : (sortedSet l).Nodup :=
    (List.perm_insertionSort (· ≤ ·) l.dedup).nodup_iff.mpr l.nodup_dedup
  exact (hle.and hnd).imp fun h => lt_of_le_of_ne h.1 h.2

/-! ## The run depends only on argv, filesystem, manifest and glob -/

theorem LoadSimulationObjectData_congr {w₁ w₂ : World} {rd : PyStr} {a : AgentInfo}
    (hg : w₁.glob = w₂.glob) :
    LoadSimulationObjectData w₁ rd a = LoadSimulationObjectData w₂ rd a := by
  simp only [LoadSimulationObjectData, hg]

theorem LoadExtracellularSubstanceData_congr {w₁ w₂ : World} {rd : PyStr}
    {s : SubstanceInfo} (hg : w₁.glob = w₂.glob) :
    LoadExtracellularSubstanceData w₁ rd s = LoadExtracellularSubstanceData w₂ rd s := by
  simp only [LoadExtracellularSubstanceData, hg]

theorem processAgents_congr {w₁ w₂ : World} {rd : PyStr} (hg : w₁.glob = w₂.glob) :
    ∀ as : List AgentInfo, processAgents w₁ rd as = processAgents w₂ rd as := by
  intro as
  induction as with
  | nil => rfl
  | cons a rest ih =>
    simp only [processAgents, LoadSimulationObjectData_congr hg, ih]

theorem processSubstances_congr {w₁ w₂ : World} {rd : PyStr} (hg : w₁.glob = w₂.glob) :
    ∀ ss : List SubstanceInfo, processSubstances w₁ rd ss = processSubstances w₂ rd ss := by
  intro ss
  induction ss with
  | nil => rfl
  | cons s rest ih =>
    simp only [processSubstances, LoadExtracellularSubstanceData_congr hg, ih]

theorem BuildDefaultPipeline_congr {w₁ w₂ : World} {r : Bool} {jf : PyStr}
    (hp : w₁.pathExists = w₂.pathExists) (hm : w₁.manifestOf = w₂.manifestOf)
    (hg : w₁.glob = w₂.glob) :
    BuildDefaultPipeline w₁ r jf = BuildDefaultPipeline w₂ r jf := by
  simp only [BuildDefaultPipeline, hp, hm, processAgents_congr hg,
    processSubstances_congr hg]

theorem WritePvsmFile_congr {w₁ w₂ : World} (hp : w₁.pathExists = w₂.pathExists)
    (m : Manifest) : WritePvsmFile w₁ m = WritePvsmFile w₂ m := by
  simp only [WritePvsmFile, hp]

theorem runScript_congr {w₁ w₂ : World} (ha : w₁.argvTail = w₂.argvTail)
    (hp : w₁.pathExists = w₂.pathExists) (hm : w₁.manifestOf = w₂.manifestOf)
    (hg : w₁.glob = w₂.glob) : runScript w₁ = runScript w₂ := by
  simp only [runScript, ha, BuildDefaultPipeline_congr hp hm hg,
    WritePvsmFile_congr hp]

/-! ## Concrete worlds used to witness the theorems -/

def demoResultDir : PyStr := "/tmp/res".toList

def demoManifest : Manifest :=
  { simName := "cancergrowth".toList
    resultDir := demoResultDir
    agents := [⟨"cell".toList⟩]
    substances := [⟨"Kalium".toList⟩] }

def demoAgentFiles : List PyStr :=
  [ "/tmp/res/cell-10.pvtu".toList, "/tmp/res/cell-2.pvtu".toList ]

def demoSubstFiles : List PyStr := [ "/tmp/res/Kalium-2.pvti".toList ]

def demoJson : PyStr := "sim.json".toList

/-- A world in which the run succeeds end to end. -/
def demoWorld : World :=
  { argvTail := [demoJson]
    envBdmRenderless := none
    pathExists := fun p => p = demoJson || p = demoResultDir
    manifestOf := fun _ => demoManifest
    glob := fun pat =>
      if pat = agentPattern demoResultDir ("cell".toList) then demoAgentFiles
      else if pat = substancePattern demoResultDir ("Kalium".toList) then demoSubstFiles
      else [] }

/-! ## Claims -/

/-- C1: for every non-empty list of discovered files whose names all carry a
parseable iteration, `LoadSimulationObjectData` and
`LoadExtracellularSubstanceData` pass the files to the toolkit reader
sorted ascending by the iteration extracted from each filename, and on
equal iterations the discovery (glob) order is preserved (stable sort). -/
theorem loadData_sorted_stable (w : World) (rd : PyStr) (a : AgentInfo)
    (sb : SubstanceInfo)
    (ha1 : w.glob (agentPattern rd a.name) ≠ [])
    (ha2 : ∀ f ∈ w.glob (agentPattern rd a.name),
      (extractIterationFromFilename f).isSome)
    (hs1 : w.glob (substancePattern rd sb.name) ≠ [])
    (hs2 : ∀ f ∈ w.glob (substancePattern rd sb.name),
      (extractIterationFromFilename f).isSome) :
    (∃ fs, LoadSimulationObjectData w rd a = .ok [.createUnstructuredGridReader fs] fs
      ∧ List.Perm fs (w.glob (agentPattern rd a.name))
      ∧ fs.Pairwise (fun x y => iterKey x ≤ iterKey y)
      ∧ ∀ k : Int, fs.filter (fun f => iterKey f == k)
          = (w.glob (agentPattern rd a.name)).filter (fun f => iterKey f == k))
    ∧ ∃ fs, LoadExtracellularSubstanceData w rd sb = .ok [.createImageDataReader fs] fs
      ∧ List.Perm fs (w.glob (substancePattern rd sb.name))
      ∧ fs.Pairwise (fun x y => iterKey x ≤ iterKey y)
      ∧ ∀ k : Int, fs.filter (fun f => iterKey f == k)
          = (w.glob (substancePattern rd sb.name)).filter (fun f => iterKey f == k) :=
  ⟨⟨_, LoadSimulationObjectData_of_ok ⟨ha1, ha2⟩, sortFilesByIteration_perm _,
    sortFilesByIteration_sorted _, fun k => sortFilesByIteration_stable _ k⟩,
   ⟨_, LoadExtracellularSubstanceData_of_ok ⟨hs1, hs2⟩, sortFilesByIteration_perm _,
    sortFilesByIteration_sorted _, fun k => sortFilesByIteration_stable _ k⟩⟩

theorem loadData_sorted_stable_witness :
    ∃ fs, LoadSimulationObjectData demoWorld demoResultDir ⟨"cell".toList⟩
        = .ok [.createUnstructuredGridReader fs] fs
      ∧ List.Perm fs (demoWorld.glob (agentPattern demoResultDir ("cell".toList)))
      ∧ fs.Pairwise (fun x y => iterKey x ≤ iterKey y)
      ∧ ∀ k : Int, fs.filter (fun f => iterKey f == k)
          = (demoWorld.glob (agentPattern demoResultDir ("cell".toList))).filter
              (fun f => iterKey f == k) :=
  (loadData_sorted_stable demoWorld demoResultDir ⟨"cell".toList⟩ ⟨"Kalium".toList⟩
    (by decide) (by decide) (by decide) (by decide)).1

/-- C5: `ExtractIterationFromFilename` parses (with Python `int`) the
substring between the last `-` and the `.` that follows it; when that
substring is not a valid integer literal the result is the uncaught
`ValueError` (modelled as `none`, and the extraction loop dies with
`Res.err`). -/
theorem extract_iteration_spec (a c d : PyStr)
    (hb : '-' ∉ c ++ '.' :: d) (hc : '.' ∉ c) :
    extractIterationFromFilename (a ++ '-' :: (c ++ '.' :: d)) = pyInt c
      ∧ (pyInt c = none →
          extractIters [a ++ '-' :: (c ++ '.' :: d)] = Res.err []) := by
  have h1 : extractIterationFromFilename (a ++ '-' :: (c ++ '.' :: d)) = pyInt c := by
    simp only [extractIterationFromFilename]
    rw [pySplit_append, pySplit_of_not_mem hb, List.getLastD_concat,
      pySplit_append, pySplit_of_not_mem hc]
    rfl
  refine ⟨h1, fun hnone => ?_⟩
  simp [extractIters, h1, hnone]

theorem extract_iteration_spec_witness :
    extractIterationFromFilename
        (("cell".toList) ++ '-' :: (("12".toList) ++ '.' :: ("pvtu".toList)))
      = pyInt ("12".toList)
    ∧ (pyInt ("12".toList) = none →
        extractIters [("cell".toList) ++ '-' :: (("12".toList) ++ '.' :: ("pvtu".toList))]
          = Res.err []) :=
  extract_iteration_spec ("cell".toList) ("12".toList) ("pvtu".toList)
    (by decide) (by decide)

/-- C6 counterexample: no invocation with `BDM_RENDERLESS=1` in the
environment and no `--bd-renderless` argument runs renderless — the
variant under `src/` never consults the environment variable, so the
claimed alternate trigger does not exist. -/
theorem renderless_env_counterexample :
    ¬ ∃ w : World, w.envBdmRenderless = some ("1".toList)
      ∧ (∀ x ∈ w.argvTail, x ≠ ("--bd-renderless".toList))
      ∧ (resolveRenderless w.argvTail).1 = true := by
  rintro ⟨w, -, hnoflag, hr⟩
  rcases hv : w.argvTail with _ | ⟨a, rest⟩ <;> rw [hv] at hr
  · simp [resolveRenderless] at hr
  · simp only [resolveRenderless] at hr
    split at hr
    · exact hnoflag a (by simp [hv]) (by assumption)
    · simp at hr

/-- C6 amended: renderless mode is enabled exactly when the first
command-line argument is `--bd-renderless`; the `BDM_RENDERLESS`
environment variable is never read, so changing it never changes the
run's outcome. -/
theorem renderless_cli_only (w : World) (e₁ e₂ : Option PyStr) :
    ((resolveRenderless w.argvTail).1 = true
      ↔ w.argvTail.head? = some ("--bd-renderless".toList))
    ∧ runScript { w with envBdmRenderless := e₁ }
        = runScript { w with envBdmRenderless := e₂ } := by
  constructor
  · rcases hv : w.argvTail with _ | ⟨a, rest⟩
    · simp [resolveRenderless]
    · simp only [resolveRenderless, List.head?, Option.some_inj]
      split
      · simp_all
      · simp_all
  · exact runScript_congr rfl rfl rfl rfl

/-- C9: whenever, after removing an optional leading `--bd-renderless`,
the number of remaining arguments is not exactly one, the script prints
the usage message and exits with code 1 — a fourth fatal exit path. -/
theorem usage_error_exit (w : World)
    (h : (resolveRenderless w.argvTail).2.length ≠ 1) :
    runScript w
      = .exit1 (preEffects (resolveRenderless w.argvTail).1 ++ [.print msgUsage]) :=
  runScript_badArgs h

theorem usage_error_exit_witness :
    runScript { demoWorld with argvTail := [] }
      = .exit1 (preEffects (resolveRenderless ([] : List PyStr)).1 ++ [.print msgUsage]) :=
  usage_error_exit { demoWorld with argvTail := [] } (by decide)

theorem isAgentLoopEff_ne_update {e : Eff} (h : isAgentLoopEff e) :
    e ≠ .updateAnimationUsingDataTimeSteps := by
  rcases h with ⟨fs, rfl⟩ | ⟨n, rfl⟩ <;> simp

theorem isSubstanceLoopEff_ne_update {e : Eff} (h : isSubstanceLoopEff e) :
    e ≠ .updateAnimationUsingDataTimeSteps := by
  rcases h with ⟨fs, rfl⟩ | ⟨n, rfl⟩ <;> simp

theorem tsAssignments_append (u v : List Eff) :
    tsAssignments (u ++ v) = tsAssignments u ++ tsAssignments v :=
  List.filterMap_append u v _

theorem framesAssignments_append (u v : List Eff) :
    framesAssignments (u ++ v) = framesAssignments u ++ framesAssignments v :=
  List.filterMap_append u v _

theorem tsAssignments_agentEffs {t : List Eff} (h : ∀ e ∈ t, isAgentLoopEff e) :
    tsAssignments t = [] :=
  List.filterMap_eq_nil_iff.mpr fun e he => by
    rcases h e he with ⟨fs, rfl⟩ | ⟨n, rfl⟩ <;> rfl

theorem tsAssignments_substanceEffs {t : List Eff} (h : ∀ e ∈ t, isSubstanceLoopEff e) :
    tsAssignments t = [] :=
  List.filterMap_eq_nil_iff.mpr fun e he => by
    rcases h e he with ⟨fs, rfl⟩ | ⟨n, rfl⟩ <;> rfl

theorem framesAssignments_agentEffs {t : List Eff} (h : ∀ e ∈ t, isAgentLoopEff e) :
    framesAssignments t = [] :=
  List.filterMap_eq_nil_iff.mpr fun e he => by
    rcases h e he with ⟨fs, rfl⟩ | ⟨n, rfl⟩ <;> rfl

theorem framesAssignments_substanceEffs {t : List Eff}
    (h : ∀ e ∈ t, isSubstanceLoopEff e) : framesAssignments t = [] :=
  List.filterMap_eq_nil_iff.mpr fun e he => by
    rcases h e he with ⟨fs, rfl⟩ | ⟨n, rfl⟩ <;> rfl

theorem tsAssignments_viewEffs (r : Bool) : tsAssignments (viewEffs r) = [] := by
  cases r <;> rfl

theorem framesAssignments_viewEffs (r : Bool) : framesAssignments (viewEffs r) = [] := by
  cases r <;> rfl

theorem tsAssignments_pipeTail (r : Bool) (ts : List Int) :
    tsAssignments (pipeTail r ts) = [ts] := by
  cases r <;> rfl

theorem framesAssignments_pipeTail (r : Bool) (ts : List Int) :
    framesAssignments (pipeTail r ts) = [ts.length] := by
  cases r <;> rfl

/-- C3: on a completed pipeline run, the time-keeper receives exactly one
`TimestepValues` assignment, and it is the set of iteration numbers
extracted from every discovered agent and substance file, deduplicated
and sorted strictly ascending. -/
theorem timestep_values_sorted_union (w : World) (r : Bool) (jf : PyStr)
    (t : List Eff) (m : Manifest) (h : BuildDefaultPipeline w r jf = .ok t m) :
    ∃ ts, tsAssignments t = [ts]
      ∧ ts.Pairwise (· < ·)
      ∧ ∀ x : Int, x ∈ ts
          ↔ ∃ f ∈ discoveredFiles w m, extractIterationFromFilename f = some x := by
  obtain ⟨hjf, hm, tA, lA, tS, lS, hA, hS, ht⟩ := BuildDefaultPipeline_ok_inv h
  obtain ⟨hpermA, heffA, -⟩ := processAgents_ok_inv hA
  obtain ⟨hpermS, heffS, -⟩ := processSubstances_ok_inv hS
  subst ht
  refine ⟨sortedSet (lA ++ lS), ?_, sortedSet_sorted _, ?_⟩
  · rw [tsAssignments_append, tsAssignments_append, tsAssignments_append,
      tsAssignments_viewEffs, tsAssignments_agentEffs heffA,
      tsAssignments_substanceEffs heffS, tsAssignments_pipeTail]
    rfl
  · intro x
    rw [sortedSet_mem, List.mem_append, hpermA.mem_iff, hpermS.mem_iff]
    simp only [List.mem_filterMap, discoveredFiles, List.mem_append]
    constructor
    · rintro (⟨f, hf, hfx⟩ | ⟨f, hf, hfx⟩)
      · exact ⟨f, Or.inl hf, hfx⟩
      · exact ⟨f, Or.inr hf, hfx⟩
    · rintro ⟨f, hf | hf, hfx⟩
      · exact Or.inl ⟨f, hf, hfx⟩
      · exact Or.inr ⟨f, hf, hfx⟩

/-- C7: on a completed pipeline run, the toolkit's
`UpdateAnimationUsingDataTimeSteps` is invoked iff renderless mode is
off, and in interactive mode it comes after the timestep values are
set. -/
theorem update_animation_iff_interactive (w : World) (r : Bool) (jf : PyStr)
    (t : List Eff) (m : Manifest) (h : BuildDefaultPipeline w r jf = .ok t m) :
    (Eff.updateAnimationUsingDataTimeSteps ∈ t ↔ r = false)
    ∧ (r = false → ∃ t0 ts, t = t0 ++ [.setTimestepValues ts,
        .setNumberOfFrames ts.length, .updateAnimationUsingDataTimeSteps]) := by
  obtain ⟨-, -, tA, lA, tS, lS, hA, hS, ht⟩ := BuildDefaultPipeline_ok_inv h
  obtain ⟨-, heffA, -⟩ := processAgents_ok_inv hA
  obtain ⟨-, heffS, -⟩ := processSubstances_ok_inv hS
  subst ht
  constructor
  · constructor
    · intro hmem
      cases r
      · rfl
      · exfalso
        rcases List.mem_append.mp hmem with h1 | h1
        rcases List.mem_append.mp h1 with h2 | h2
        rcases List.mem_append.mp h2 with h3 | h3
        · simp [viewEffs] at h3
        · exact absurd rfl (isAgentLoopEff_ne_update (heffA _ h3))
        · exact absurd rfl (isSubstanceLoopEff_ne_update (heffS _ h2))
        · simp [pipeTail] at h1
    · intro hr
      subst hr
      apply List.mem_append.mpr
      refine Or.inr ?_
      simp [pipeTail]
  · intro hr
    subst hr
    refine ⟨viewEffs false ++ tA ++ tS, sortedSet (lA ++ lS), ?_⟩
    simp [pipeTail, List.append_assoc]

/-- C10: on a completed pipeline run, `NumberOfFrames` receives exactly
one assignment: the number of distinct iteration values observed across
all discovered agent and substance files. -/
theorem number_of_frames_distinct_count (w : World) (r : Bool) (jf : PyStr)
    (t : List Eff) (m : Manifest) (h : BuildDefaultPipeline w r jf = .ok t m) :
    framesAssignments t
      = [((discoveredFiles w m).filterMap extractIterationFromFilename).dedup.length] := by
  obtain ⟨hjf, hm, tA, lA, tS, lS, hA, hS, ht⟩ := BuildDefaultPipeline_ok_inv h
  obtain ⟨hpermA, heffA, -⟩ := processAgents_ok_inv hA
  obtain ⟨hpermS, heffS, -⟩ := processSubstances_ok_inv hS
  subst ht
  rw [framesAssignments_append, framesAssignments_append, framesAssignments_append,
    framesAssignments_viewEffs, framesAssignments_agentEffs heffA,
    framesAssignments_substanceEffs heffS, framesAssignments_pipeTail]
  have hp : List.Perm (lA ++ lS)
      ((discoveredFiles w m).filterMap extractIterationFromFilename) := by
    rw [discoveredFiles, List.filterMap_append]
    exact hpermA.append hpermS
  simp only [List.nil_append, sortedSet_length, hp.dedup.length_eq]

/-- The effect trace of the demo pipeline run (interactive mode). -/
def demoTrace : List Eff := (BuildDefaultPipeline demoWorld false demoJson).trace

theorem timestep_values_sorted_union_witness :
    ∃ ts, tsAssignments demoTrace = [ts]
      ∧ ts.Pairwise (· < ·)
      ∧ ∀ x : Int, x ∈ ts
          ↔ ∃ f ∈ discoveredFiles demoWorld demoManifest,
              extractIterationFromFilename f = some x :=
  timestep_values_sorted_union demoWorld false demoJson demoTrace demoManifest (by decide)

theorem update_animation_iff_interactive_witness :
    (Eff.updateAnimationUsingDataTimeSteps ∈ demoTrace ↔ false = false)
    ∧ (false = false → ∃ t0 ts, demoTrace = t0 ++ [.setTimestepValues ts,
        .setNumberOfFrames ts.length, .updateAnimationUsingDataTimeSteps]) :=
  update_animation_iff_interactive demoWorld false demoJson demoTrace demoManifest
    (by decide)

theorem number_of_frames_distinct_count_witness :
    framesAssignments demoTrace
      = [((discoveredFiles demoWorld demoManifest).filterMap
          extractIterationFromFilename).dedup.length] :=
  number_of_frames_distinct_count demoWorld false demoJson demoTrace demoManifest
    (by decide)

theorem Res.trace_withTrace (t : List Eff) (m : Res α) :
    (Res.withTrace t m).trace = t ++ m.trace := by
  cases m <;> rfl

theorem Res.trace_exit1 (t : List Eff) : (Res.exit1 t : Res α).trace = t := rfl

theorem Res.trace_err (t : List Eff) : (Res.err t : Res α).trace = t := rfl

theorem Res.trace_ok (t : List Eff) (a : α) : (Res.ok t a).trace = t := rfl

theorem print_not_mem_preEffects (b : Bool) (msg : PyStr) :
    Eff.print msg ∉ preEffects b := by
  cases b <;> simp [preEffects]

theorem print_not_mem_viewEffs (b : Bool) (msg : PyStr) :
    Eff.print msg ∉ viewEffs b := by
  cases b <;> simp [viewEffs]

theorem createView_mem_viewEffs (b : Bool) : Eff.createView ∈ viewEffs b := by
  cases b <;> simp [viewEffs]

theorem saveState_not_mem_preEffects (b : Bool) (n : PyStr) :
    Eff.saveState n ∉ preEffects b := by
  cases b <;> simp [preEffects]

theorem saveState_not_mem_viewEffs (b : Bool) (n : PyStr) :
    Eff.saveState n ∉ viewEffs b := by
  cases b <;> simp [viewEffs]

theorem WritePvsmFile_trace_no_print (w : World) (m : Manifest) (msg : PyStr) :
    Eff.print msg ∉ (WritePvsmFile w m).trace := by
  simp only [WritePvsmFile]
  split <;> simp [Res.trace]

theorem msgDirMissing_ne_msgNoAgentFiles (rd n : PyStr) :
    msgDirMissing rd ≠ msgNoAgentFiles n := by
  intro h
  have hS : (msgDirMissing rd).headD ' ' = 'S' := rfl
  have hN : (msgNoAgentFiles n).headD ' ' = 'N' := rfl
  rw [h, hN] at hS
  exact absurd hS (by decide)

theorem msgDirMissing_ne_msgNoSubstanceFiles (rd n : PyStr) :
    msgDirMissing rd ≠ msgNoSubstanceFiles n := by
  intro h
  have hS : (msgDirMissing rd).headD ' ' = 'S' := rfl
  have hN : (msgNoSubstanceFiles n).headD ' ' = 'N' := rfl
  rw [h, hN] at hS
  exact absurd hS (by decide)

/-- Manifest naming the empty string as result directory. -/
def emptyDirManifest : Manifest :=
  { simName := "cancergrowth".toList
    resultDir := []
    agents := [⟨"cell".toList⟩]
    substances := [] }

/-- World for the empty-`result_dir` scenario: the manifest exists, the
empty path does not, yet the glob still finds a data file. -/
def emptyDirWorld : World :=
  { argvTail := [demoJson]
    envBdmRenderless := none
    pathExists := fun p => p = demoJson
    manifestOf := fun _ => emptyDirManifest
    glob := fun _ => [ "/cell-1.pvtu".toList ] }

/-- World in which the JSON manifest itself is missing. -/
def missingJsonWorld : World := { demoWorld with pathExists := fun _ => false }

/-- C2 counterexample: a manifest whose `result_dir` is the empty string —
a path that does not exist — is not caught by the directory check: the
run prints no missing-directory diagnostic, does not terminate through
the script's `sys.exit(1)`, and proceeds into pipeline building (it
later dies on the uncaught `os.chdir('')` exception instead). -/
theorem fatal_conditions_counterexample :
    emptyDirWorld.pathExists (emptyDirWorld.manifestOf demoJson).resultDir = false
    ∧ (runScript emptyDirWorld).isFatalExit1 = false
    ∧ Eff.print (msgDirMissing (emptyDirWorld.manifestOf demoJson).resultDir)
        ∉ (runScript emptyDirWorld).trace
    ∧ Eff.createView ∈ (runScript emptyDirWorld).trace :=
  ⟨by decide, by decide, by decide, by decide⟩

/-- C2 amended: under a single (post-flag) argument, each fatal condition
prints its diagnostic to stdout and exits with code 1; for the
result-directory condition this holds for every manifest whose
`result_dir` is a NON-EMPTY string that does not exist (an empty
`result_dir` skips the check), and the empty-glob condition fires for an
agent (or substance) reached after all earlier ones succeeded. -/
theorem fatal_conditions_amended (w : World) (jf : PyStr)
    (hargs : (resolveRenderless w.argvTail).2 = [jf]) :
    (w.pathExists jf = false →
      runScript w = .exit1 (preEffects (resolveRenderless w.argvTail).1
        ++ [.print (msgJsonMissing jf)]))
    ∧ (w.pathExists jf = true →
        pyTruthy (w.manifestOf jf).resultDir = true →
        w.pathExists (w.manifestOf jf).resultDir = false →
        runScript w = .exit1 (preEffects (resolveRenderless w.argvTail).1
          ++ [.print (msgDirMissing (w.manifestOf jf).resultDir)]))
    ∧ (∀ as1 a as2,
        w.pathExists jf = true →
        (pyTruthy (w.manifestOf jf).resultDir
          && !(w.pathExists (w.manifestOf jf).resultDir)) = false →
        (w.manifestOf jf).agents = as1 ++ a :: as2 →
        (∀ x ∈ as1, agentOk w (w.manifestOf jf).resultDir x) →
        w.glob (agentPattern (w.manifestOf jf).resultDir a.name) = [] →
        ∃ t0, runScript w = .exit1 (t0 ++ [.print (msgNoAgentFiles a.name)]))
    ∧ (∀ ss1 s ss2,
        w.pathExists jf = true →
        (pyTruthy (w.manifestOf jf).resultDir
          && !(w.pathExists (w.manifestOf jf).resultDir)) = false →
        (w.manifestOf jf).substances = ss1 ++ s :: ss2 →
        (∀ x ∈ (w.manifestOf jf).agents, agentOk w (w.manifestOf jf).resultDir x) →
        (∀ x ∈ ss1, substanceOk w (w.manifestOf jf).resultDir x) →
        w.glob (substancePattern (w.manifestOf jf).resultDir s.name) = [] →
        ∃ t0, runScript w = .exit1 (t0 ++ [.print (msgNoSubstanceFiles s.name)])) := by
  refine ⟨?_, ?_, ?_, ?_⟩
  · intro h
    rw [runScript_validArgs hargs, BuildDefaultPipeline_jsonMissing h]
    simp
  · intro h1 h2 h3
    rw [runScript_validArgs hargs, BuildDefaultPipeline_dirMissing h1 h2 h3]
    simp
  · intro as1 a as2 hjf hdir hag hok hglob
    obtain ⟨t, hpa, -⟩ := processAgents_noFiles a as2 hok hglob
    rw [← hag] at hpa
    refine ⟨preEffects (resolveRenderless w.argvTail).1
      ++ viewEffs (resolveRenderless w.argvTail).1 ++ t, ?_⟩
    rw [runScript_validArgs hargs, BuildDefaultPipeline_agentsExit1 hjf hdir hpa]
    simp [List.append_assoc]
  · intro ss1 s ss2 hjf hdir hsub hokA hokS hglob
    obtain ⟨tA, lA, hA, -, -⟩ := processAgents_ok_of_allOk hokA
    obtain ⟨t, hps, -⟩ := processSubstances_noFiles s ss2 hokS hglob
    rw [← hsub] at hps
    refine ⟨preEffects (resolveRenderless w.argvTail).1
      ++ viewEffs (resolveRenderless w.argvTail).1 ++ tA ++ t, ?_⟩
    rw [runScript_validArgs hargs, BuildDefaultPipeline_substancesExit1 hjf hdir hA hps]
    simp [List.append_assoc]

theorem fatal_conditions_amended_witness :
    runScript missingJsonWorld
      = .exit1 (preEffects (resolveRenderless missingJsonWorld.argvTail).1
        ++ [.print (msgJsonMissing demoJson)]) :=
  (fatal_conditions_amended missingJsonWorld demoJson (by decide)).1 (by decide)

/-- C4: whenever one of the three fatal conditions fires, the run
terminates through `sys.exit(1)` before `WritePvsmFile`, with a trace
containing no `SaveState` call — no session file is ever written. -/
theorem fatal_exit_no_savestate (w : World) (jf : PyStr)
    (hargs : (resolveRenderless w.argvTail).2 = [jf])
    (hfatal :
      w.pathExists jf = false
      ∨ (w.pathExists jf = true ∧ pyTruthy (w.manifestOf jf).resultDir = true
          ∧ w.pathExists (w.manifestOf jf).resultDir = false)
      ∨ (w.pathExists jf = true
          ∧ (pyTruthy (w.manifestOf jf).resultDir
              && !(w.pathExists (w.manifestOf jf).resultDir)) = false
          ∧ ∃ as1 a as2, (w.manifestOf jf).agents = as1 ++ a :: as2
              ∧ (∀ x ∈ as1, agentOk w (w.manifestOf jf).resultDir x)
              ∧ w.glob (agentPattern (w.manifestOf jf).resultDir a.name) = [])
      ∨ (w.pathExists jf = true
          ∧ (pyTruthy (w.manifestOf jf).resultDir
              && !(w.pathExists (w.manifestOf jf).resultDir)) = false
          ∧ (∀ x ∈ (w.manifestOf jf).agents, agentOk w (w.manifestOf jf).resultDir x)
          ∧ ∃ ss1 s ss2, (w.manifestOf jf).substances = ss1 ++ s :: ss2
              ∧ (∀ x ∈ ss1, substanceOk w (w.manifestOf jf).resultDir x)
              ∧ w.glob (substancePattern (w.manifestOf jf).resultDir s.name) = [])) :
    ∃ t, runScript w = .exit1 t ∧ ∀ n, Eff.saveState n ∉ t := by
  rcases hfatal with h | ⟨h1, h2, h3⟩ | ⟨hjf, hdir, as1, a, as2, hag, hok, hglob⟩
    | ⟨hjf, hdir, hokA, ss1, s, ss2, hsub, hokS, hglob⟩
  · refine ⟨preEffects (resolveRenderless w.argvTail).1 ++ [.print (msgJsonMissing jf)],
      by rw [runScript_validArgs hargs, BuildDefaultPipeline_jsonMissing h]; simp, ?_⟩
    intro n hmem
    rcases List.mem_append.mp hmem with hm | hm
    · exact saveState_not_mem_preEffects _ n hm
    · simp at hm
  · refine ⟨preEffects (resolveRenderless w.argvTail).1
        ++ [.print (msgDirMissing (w.manifestOf jf).resultDir)],
      by rw [runScript_validArgs hargs, BuildDefaultPipeline_dirMissing h1 h2 h3]; simp, ?_⟩
    intro n hmem
    rcases List.mem_append.mp hmem with hm | hm
    · exact saveState_not_mem_preEffects _ n hm
    · simp at hm
  · obtain ⟨t, hpa, heff⟩ := processAgents_noFiles a as2 hok hglob
    rw [← hag] at hpa
    refine ⟨preEffects (resolveRenderless w.argvTail).1
      ++ viewEffs (resolveRenderless w.argvTail).1 ++ t
      ++ [.print (msgNoAgentFiles a.name)], ?_, ?_⟩
    · rw [runScript_validArgs hargs, BuildDefaultPipeline_agentsExit1 hjf hdir hpa]
      simp [List.append_assoc]
    · intro n hmem
      rcases List.mem_append.mp hmem with hm | hm
      rcases List.mem_append.mp hm with hm2 | hm2
      rcases List.mem_append.mp hm2 with hm3 | hm3
      · exact saveState_not_mem_preEffects _ n hm3
      · exact saveState_not_mem_viewEffs _ n hm3
      · exact absurd rfl (isAgentLoopEff_ne_saveState (heff _ hm2))
      · simp at hm
  · obtain ⟨tA, lA, hA, -, heffA⟩ := processAgents_ok_of_allOk hokA
    obtain ⟨t, hps, heffS⟩ := processSubstances_noFiles s ss2 hokS hglob
    rw [← hsub] at hps
    refine ⟨preEffects (resolveRenderless w.argvTail).1
      ++ viewEffs (resolveRenderless w.argvTail).1 ++ tA ++ t
      ++ [.print (msgNoSubstanceFiles s.name)], ?_, ?_⟩
    · rw [runScript_validArgs hargs, BuildDefaultPipeline_substancesExit1 hjf hdir hA hps]
      simp [List.append_assoc]
    · intro n hmem
      rcases List.mem_append.mp hmem with hm | hm
      rcases List.mem_append.mp hm with hm2 | hm2
      rcases List.mem_append.mp hm2 with hm3 | hm3
      rcases List.mem_append.mp hm3 with hm4 | hm4
      · exact saveState_not_mem_preEffects _ n hm4
      · exact saveState_not_mem_viewEffs _ n hm4
      · exact absurd rfl (isAgentLoopEff_ne_saveState (heffA _ hm3))
      · exact absurd rfl (isSubstanceLoopEff_ne_saveState (heffS _ hm2))
      · simp at hm

theorem fatal_exit_no_savestate_witness :
    ∃ t, runScript missingJsonWorld = .exit1 t ∧ ∀ n, Eff.saveState n ∉ t :=
  fatal_exit_no_savestate missingJsonWorld demoJson (by decide) (Or.inl (by decide))

/-- C8: when the manifest's `result_dir` is the empty string, the
existence check is skipped entirely: the run never prints the
missing-directory diagnostic and does not exit there, proceeding into
pipeline building (the view is created) although the empty path does
not exist. -/
theorem empty_result_dir_check_skipped (w : World) (jf : PyStr)
    (hargs : (resolveRenderless w.argvTail).2 = [jf])
    (hjf : w.pathExists jf = true)
    (hrd : (w.manifestOf jf).resultDir = [])
    (_hne : w.pathExists ([] : PyStr) = false) :
    Eff.createView ∈ (runScript w).trace
    ∧ Eff.print (msgDirMissing []) ∉ (runScript w).trace := by
  have hdir : (pyTruthy (w.manifestOf jf).resultDir
      && !(w.pathExists (w.manifestOf jf).resultDir)) = false := by
    rw [hrd]
    rfl
  obtain ⟨t2, htrace, hprints⟩ :=
    BuildDefaultPipeline_trace_pastDirCheck (r := (resolveRenderless w.argvTail).1)
      hjf hdir
  have hnotin : ∀ t2' : List Eff, (∀ msg, Eff.print msg ∈ t2' →
      (∃ n, msg = msgNoAgentFiles n) ∨ ∃ n, msg = msgNoSubstanceFiles n) →
      Eff.print (msgDirMissing []) ∉ t2' := by
    intro t2' hcl hmem
    rcases hcl _ hmem with ⟨n, hn⟩ | ⟨n, hn⟩
    · exact msgDirMissing_ne_msgNoAgentFiles [] n hn
    · exact msgDirMissing_ne_msgNoSubstanceFiles [] n hn
  rw [runScript_validArgs hargs, Res.trace_withTrace]
  rcases hB : BuildDefaultPipeline w (resolveRenderless w.argvTail).1 jf
      with tB | tB | ⟨tB, mB⟩ <;> rw [hB] at htrace <;>
    simp only [Res.trace_exit1, Res.trace_err, Res.trace_ok] at htrace <;>
    subst htrace <;>
    simp only [Res.bind_exit1, Res.bind_err, Res.bind_ok, Res.trace_exit1,
      Res.trace_err, Res.trace_ok, Res.trace_withTrace]
  · constructor
    · exact List.mem_append.mpr (Or.inr
        (List.mem_append.mpr (Or.inl (createView_mem_viewEffs _))))
    · intro hmem
      rcases List.mem_append.mp hmem with hm | hm
      · exact print_not_mem_preEffects _ _ hm
      rcases List.mem_append.mp hm with hm2 | hm2
      · exact print_not_mem_viewEffs _ _ hm2
      · exact hnotin t2 hprints hm2
  · constructor
    · exact List.mem_append.mpr (Or.inr
        (List.mem_append.mpr (Or.inl (createView_mem_viewEffs _))))
    · intro hmem
      rcases List.mem_append.mp hmem with hm | hm
      · exact print_not_mem_preEffects _ _ hm
      rcases List.mem_append.mp hm with hm2 | hm2
      · exact print_not_mem_viewEffs _ _ hm2
      · exact hnotin t2 hprints hm2
  · constructor
    · exact List.mem_append.mpr (Or.inr (List.mem_append.mpr (Or.inl
        (List.mem_append.mpr (Or.inl (createView_mem_viewEffs _))))))
    · intro hmem
      rcases List.mem_append.mp hmem with hm | hm
      · exact print_not_mem_preEffects _ _ hm
      rcases List.mem_append.mp hm with hm2 | hm2
      rcases List.mem_append.mp hm2 with hm3 | hm3
      · exact print_not_mem_viewEffs _ _ hm3
      · exact hnotin t2 hprints hm3
      · exact WritePvsmFile_trace_no_print w mB _ hm2

theorem empty_result_dir_check_skipped_witness :
    Eff.createView ∈ (runScript emptyDirWorld).trace
    ∧ Eff.print (msgDirMissing []) ∉ (runScript emptyDirWorld).trace :=
  empty_result_dir_check_skipped emptyDirWorld demoJson (by decide) (by decide)
    (by decide) (by decide)
